import Mathlib

/-!
Verification development for the portfolio fund-flow tracker
(transactions_visualize.py).  Monetary amounts (Python floats) are
modelled as exact rationals; dates as natural numbers ordered as the
ISO date strings the program compares.
-/

set_option linter.unusedVariables false
set_option linter.unreachableTactic false
set_option linter.unnecessarySeqFocus false
set_option linter.unusedTactic false

namespace YV

/-- Mirrors the `Position` dataclass. -/
structure Position where
  symbol : String
  quantity : Rat
  currency : String
  total_value : Rat
deriving DecidableEq, Repr

/-- Mirrors the `FundSource` dataclass. -/
structure FundSource where
  source_type : String
  symbol : String
  amount_usd : Rat
  date : Nat
  transaction_id : Nat
deriving DecidableEq, Repr

/-- One row of the transactions table, as `process_transactions` reads it. -/
structure Tx where
  transaction : String
  symbol : String
  date : Nat
  quantity : Rat
  price : Rat
  source : String
deriving DecidableEq, Repr

/-- One entry of `flow_data` (source/target are node indices). -/
structure FlowEdge where
  source : Nat
  target : Nat
  value : Rat
  date : Nat
  type : String
  symbol : String
  quantity : Rat
  price : Rat
  from_symbol : String
deriving DecidableEq, Repr

/-- Outcome of attempting to read a per-symbol CSV artifact:
the file may be missing, reading may raise, or a frame is produced
with or without a `Currency` column and with the column's values. -/
inductive ReadResult where
  | fileMissing : ReadResult
  | readError : ReadResult
  | frame (hasCurrencyCol : Bool) (rows : List String) : ReadResult
deriving DecidableEq, Repr

/-- Association-list lookup (Python dict / hash lookup). -/
def assocLookup {α β : Type} [DecidableEq α] : List (α × β) → α → Option β
  | [], _ => none
  | (k, v) :: rest, x => if k = x then some v else assocLookup rest x

/-- In-place update of the value stored under a key, keeping dict order. -/
def assocUpdate {α β : Type} [DecidableEq α] : List (α × β) → α → β → List (α × β)
  | [], _, _ => []
  | (k, v) :: rest, x, w => if k = x then (k, w) :: rest else (k, v) :: assocUpdate rest x w

/-- Deletion of a key from a dict. -/
def assocErase {α β : Type} [DecidableEq α] : List (α × β) → α → List (α × β)
  | [], _ => []
  | (k, v) :: rest, x => if k = x then rest else (k, v) :: assocErase rest x

/-- Stable insertion used to model Python's stable sorts: the new element
goes in front of the first element it compares less-or-equal to. -/
def sInsert {α : Type} (le : α → α → Bool) (x : α) : List α → List α
  | [] => [x]
  | y :: ys => if le x y then x :: y :: ys else y :: sInsert le x ys

/-- Stable insertion sort (models `list.sort` / pandas stable lexsort). -/
def sSort {α : Type} (le : α → α → Bool) : List α → List α
  | [] => []
  | x :: xs => sInsert le x (sSort le xs)

/-- `_eur_to_usd`: exact date match multiplies by the stored rate,
otherwise by the hardcoded fallback 1.1. -/
def eur_to_usd (rates : List (Nat × Rat)) (amount_eur : Rat) (date : Nat) : Rat :=
  match assocLookup rates date with
  | some rate => amount_eur * rate
  | none => amount_eur * (11 / 10)

/-- `_to_usd`: identity for USD, table conversion for EUR, identity fallback. -/
def to_usd (rates : List (Nat × Rat)) (amount : Rat) (from_currency : String) (date : Nat) : Rat :=
  if from_currency = "USD" then amount
  else if from_currency = "EUR" then eur_to_usd rates amount date
  else amount

/-- Result of `_get_stock_currency`: the code, the updated memo cache,
and whether the filesystem was touched. -/
structure CurrencyResult where
  currency : String
  cache : List (String × String)
  didRead : Bool
deriving DecidableEq, Repr

/-- `_get_stock_currency`: memo cache first; otherwise read the symbol's
artifact, take the first `Currency` value when present, and fall back to
"USD" on a missing file, a read error, a missing column or an empty frame.
Every path past the cache caches its answer. -/
def get_stock_currency (env : String → ReadResult) (cache : List (String × String))
    (symbol : String) : CurrencyResult :=
  match assocLookup cache symbol with
  | some c => ⟨c, cache, false⟩
  | none =>
    match env symbol with
    | .frame true (c :: _) => ⟨c, cache ++ [(symbol, c)], true⟩
    | _ => ⟨"USD", cache ++ [(symbol, "USD")], true⟩

/-- Python `str.upper`, modelled as a character map. -/
def upperTag (s : String) : String := String.mk (s.data.map Char.toUpper)

/-- Python `str.lower`, modelled as a character map. -/
def lowerTag (s : String) : String := String.mk (s.data.map Char.toLower)

/-- Source node of a pool entry inside `_allocate_funds`: the sold symbol
for sell proceeds, "Initial Cash" for everything else. -/
def sourceNodeOf (f : FundSource) : String :=
  if f.source_type = "sell" then f.symbol else "Initial Cash"

/-- Pool order used by `_allocate_funds`: ascending `transaction_id`. -/
def fundLe (f g : FundSource) : Bool :=
  f.transaction_id ≤ g.transaction_id

/-- The allocation loop of `_allocate_funds` over the sorted pool:
returns the allocation list, the remaining required amount, and the pool
after removing fully-consumed entries and shrinking a partly-consumed one. -/
def allocGo : Rat → List FundSource → List (String × Rat) × Rat × List FundSource
  | remaining, [] => ([], remaining, [])
  | remaining, f :: rest =>
    if remaining ≤ 0 then ([], remaining, f :: rest)
    else if f.amount_usd ≤ remaining then
      let r := allocGo (remaining - f.amount_usd) rest
      ((sourceNodeOf f, f.amount_usd) :: r.1, r.2.1, r.2.2)
    else
      ([(sourceNodeOf f, remaining)], 0, { f with amount_usd := f.amount_usd - remaining } :: rest)

/-- `_allocate_funds`: sort the pool by transaction id, walk it consuming
funds, and attribute any shortfall to "Initial Cash".  Returns the
allocation list and the new pool. -/
def allocate_funds (required_amount : Rat) (pool : List FundSource) :
    List (String × Rat) × List FundSource :=
  let r := allocGo required_amount (sSort fundLe pool)
  if 0 < r.2.1 then (r.1 ++ [("Initial Cash", r.2.1)], r.2.2) else (r.1, r.2.2)

/-- Sum of the amounts of an allocation list. -/
def sumAmounts (l : List (String × Rat)) : Rat :=
  (l.map Prod.snd).sum

/-- Sum of the USD amounts of a list of fund sources. -/
def sumFundAmounts (l : List FundSource) : Rat :=
  (l.map FundSource.amount_usd).sum

/-- Mutable tracker state: positions dict, fund pool, emitted edges,
node label list (index = node id) and the currency memo cache. -/
structure TrackerState where
  positions : List (String × Position)
  available_funds : List FundSource
  flow_data : List FlowEdge
  node_labels : List String
  currency_cache : List (String × String)
deriving DecidableEq, Repr

/-- Constructor state: only the "Initial Cash" node exists. -/
def initState : TrackerState :=
  { positions := [], available_funds := [], flow_data := [],
    node_labels := ["Initial Cash"], currency_cache := [] }

/-- `_add_node`: append the label if it is not yet a node. -/
def addNode (labels : List String) (s : String) : List String :=
  if s ∈ labels then labels else labels ++ [s]

/-- Index of a label in the node list (`node_map` lookup). -/
def indexOfStr : List String → String → Nat
  | [], _ => 0
  | l :: ls, s => if l = s then 0 else indexOfStr ls s + 1

/-- `_process_sell_transaction`: append a `sell` fund source whose id is
the current pool length, decrement the position when one exists and drop
it at zero or below.  Returns the USD proceeds and the new state. -/
def process_sell_transaction (env : String → ReadResult) (rates : List (Nat × Rat))
    (st : TrackerState) (tx : Tx) : Rat × TrackerState :=
  let cr := get_stock_currency env st.currency_cache tx.symbol
  let total_value := tx.quantity * tx.price
  let usd_value := to_usd rates total_value cr.currency tx.date
  let fund : FundSource :=
    ⟨"sell", tx.symbol, usd_value, tx.date, st.available_funds.length⟩
  let positions' :=
    match assocLookup st.positions tx.symbol with
    | none => st.positions
    | some p =>
      if p.quantity - tx.quantity ≤ 0 then assocErase st.positions tx.symbol
      else assocUpdate st.positions tx.symbol { p with quantity := p.quantity - tx.quantity }
  (usd_value,
   { st with positions := positions',
             available_funds := st.available_funds ++ [fund],
             currency_cache := cr.cache })

/-- `_process_buy_transaction`: create or grow the position; no fund
source is created.  Returns the USD value and the new state. -/
def process_buy_transaction (env : String → ReadResult) (rates : List (Nat × Rat))
    (st : TrackerState) (tx : Tx) : Rat × TrackerState :=
  let cr := get_stock_currency env st.currency_cache tx.symbol
  let total_value := tx.quantity * tx.price
  let usd_value := to_usd rates total_value cr.currency tx.date
  let positions' :=
    match assocLookup st.positions tx.symbol with
    | some p =>
      assocUpdate st.positions tx.symbol
        { p with quantity := p.quantity + tx.quantity,
                 total_value := p.total_value + total_value }
    | none =>
      st.positions ++ [(tx.symbol, ⟨tx.symbol, tx.quantity, cr.currency, total_value⟩)]
  (usd_value, { st with positions := positions', currency_cache := cr.cache })

/-- `_process_employment_transaction` (present in the source but never
called by `process_transactions`): add a compensation fund source with id
equal to the pool length and grow the position. -/
def process_employment_transaction (env : String → ReadResult) (rates : List (Nat × Rat))
    (st : TrackerState) (tx : Tx) : Rat × TrackerState :=
  let cr := get_stock_currency env st.currency_cache tx.symbol
  let total_value := tx.quantity * tx.price
  let usd_value := to_usd rates total_value cr.currency tx.date
  let fund : FundSource :=
    ⟨lowerTag tx.source, tx.symbol, usd_value, tx.date, st.available_funds.length⟩
  let positions' :=
    match assocLookup st.positions tx.symbol with
    | some p =>
      assocUpdate st.positions tx.symbol
        { p with quantity := p.quantity + tx.quantity,
                 total_value := p.total_value + total_value }
    | none =>
      st.positions ++ [(tx.symbol, ⟨tx.symbol, tx.quantity, cr.currency, total_value⟩)]
  (usd_value,
   { st with positions := positions',
             available_funds := st.available_funds ++ [fund],
             currency_cache := cr.cache })

/-- Sort rank of a transaction kind: sell 0, buy 1, anything else after. -/
def typeRank (t : String) : Nat :=
  if t = "sell" then 0 else if t = "buy" then 1 else 2

/-- The sort key of `process_transactions`: (date, kind rank). -/
def txKey (t : Tx) : Nat × Nat :=
  (t.date, typeRank t.transaction)

/-- Lexicographic comparison of sort keys. -/
def keyLe (p q : Nat × Nat) : Bool :=
  p.1 < q.1 || (p.1 = q.1 && p.2 ≤ q.2)

/-- Comparison on index-tagged transactions, ignoring the input index
(pandas lexsort is stable, so ties keep input order). -/
def txLe (a b : Nat × Tx) : Bool :=
  keyLe (txKey a.2) (txKey b.2)

/-- Tag each list element with its input index, starting at `n`. -/
def enumFromN {α : Type} (n : Nat) : List α → List (Nat × α)
  | [] => []
  | x :: xs => (n, x) :: enumFromN (n + 1) xs

/-- The sorting pass of `process_transactions`: stable sort of the
index-tagged input by (date, sell-before-buy). -/
def sortTransactions (txs : List Tx) : List (Nat × Tx) :=
  sSort txLe (enumFromN 0 txs)

/-- One iteration of the `process_transactions` loop. -/
def processOne (env : String → ReadResult) (rates : List (Nat × Rat))
    (st : TrackerState) (tx : Tx) : TrackerState :=
  let src := upperTag tx.source
  let st0 := { st with node_labels := addNode st.node_labels tx.symbol }
  if tx.transaction = "sell" then
    (process_sell_transaction env rates st0 tx).2
  else if tx.transaction = "buy" ∧ (src = "RSU" ∨ src = "ESPP" ∨ src = "PSU") then
    let r := process_buy_transaction env rates st0 tx
    let a := allocate_funds r.1 r.2.available_funds
    let label := src ++ " Compensation"
    let labels2 := addNode r.2.node_labels label
    let edge : FlowEdge :=
      ⟨indexOfStr labels2 label, indexOfStr labels2 tx.symbol, r.1, tx.date,
       src, tx.symbol, tx.quantity, tx.price, label⟩
    { r.2 with available_funds := a.2, node_labels := labels2,
               flow_data := r.2.flow_data ++ [edge] }
  else if tx.transaction = "buy" then
    let r := process_buy_transaction env rates st0 tx
    let a := allocate_funds r.1 r.2.available_funds
    let edges := a.1.map (fun sa =>
      (⟨indexOfStr r.2.node_labels sa.1, indexOfStr r.2.node_labels tx.symbol, sa.2,
        tx.date, "Funds", tx.symbol, tx.quantity, tx.price, sa.1⟩ : FlowEdge))
    { r.2 with available_funds := a.2, flow_data := r.2.flow_data ++ edges }
  else st0

/-- `process_transactions`: sort, then replay each transaction in order. -/
def process_transactions (env : String → ReadResult) (rates : List (Nat × Rat))
    (txs : List Tx) : TrackerState :=
  ((sortTransactions txs).map Prod.snd).foldl (processOne env rates) initState

/-- Holdings replay used by the dividend computations: sum of buy/sell
quantity deltas strictly before the query date. -/
def holdings_at (txs : List Tx) (d : Nat) : Rat :=
  txs.foldl (fun acc t =>
    if t.date < d then
      if t.transaction = "sell" then acc - t.quantity
      else if t.transaction = "buy" then acc + t.quantity
      else acc
    else acc) 0

/-- Total quantity bought strictly before a date. -/
def bought_before (txs : List Tx) (d : Nat) : Rat :=
  txs.foldl (fun acc t =>
    if t.date < d ∧ t.transaction = "buy" then acc + t.quantity else acc) 0

/-- Whether some sell of the symbol happened strictly before a date. -/
def sold_before (txs : List Tx) (d : Nat) : Bool :=
  txs.any (fun t => t.transaction = "sell" && t.date < d)

/-- Modelled from the spec: `_calculate_dividends_received`, absent from
src/ (only its tests exist).  For each dividend event date, when shares
held at that date are positive, credit shares times dividend per share
(converted to USD at that date) as a new `dividend` fund source appended
to the pool, and accumulate the running total that is returned. -/
def dividends_received (rates : List (Nat × Rat)) (currency : String) (symbol : String)
    (txs : List Tx) : List (Nat × Rat) → List FundSource → Rat × List FundSource
  | [], pool => (0, pool)
  | (d, dps) :: es, pool =>
    let sh := holdings_at txs d
    if 0 < sh then
      let amt := to_usd rates (sh * dps) currency d
      let r := dividends_received rates currency symbol txs es
        (pool ++ [⟨"dividend", symbol, amt, d, pool.length⟩])
      (amt + r.1, r.2)
    else dividends_received rates currency symbol txs es pool

/-- Modelled from the spec: `_calculate_dividends_if_held`, absent from
src/ (only its tests exist).  Mirror computation restricted to event
dates where the symbol was not held after a full exit; the hypothetical
shares are those bought before the date; nothing is injected into the
pool. -/
def dividends_if_held (rates : List (Nat × Rat)) (currency : String)
    (txs : List Tx) (events : List (Nat × Rat)) : Rat :=
  events.foldl (fun acc e =>
    if holdings_at txs e.1 ≤ 0 ∧ sold_before txs e.1 = true then
      acc + to_usd rates (bought_before txs e.1 * e.2) currency e.1
    else acc) 0

/-- The dividend fund sources credited by `dividends_received`, listed
with the ids they receive when the pool initially has `startId` entries. -/
def creditedDividendFunds (rates : List (Nat × Rat)) (currency : String) (symbol : String)
    (txs : List Tx) (startId : Nat) : List (Nat × Rat) → List FundSource
  | [] => []
  | (d, dps) :: es =>
    let sh := holdings_at txs d
    if 0 < sh then
      ⟨"dividend", symbol, to_usd rates (sh * dps) currency d, d, startId⟩ ::
        creditedDividendFunds rates currency symbol txs (startId + 1) es
    else creditedDividendFunds rates currency symbol txs startId es

/-- An artifact read outcome on which `_get_stock_currency` cannot extract
a currency: missing file, read error, missing column, or empty frame. -/
def readFails : ReadResult → Prop
  | .fileMissing => True
  | .readError => True
  | .frame false _ => True
  | .frame true [] => True
  | .frame true (_ :: _) => False

instance (r : ReadResult) : Decidable (readFails r) := by
  cases r with
  | fileMissing => exact isTrue trivial
  | readError => exact isTrue trivial
  | frame h rows =>
    cases h with
    | false => exact isTrue trivial
    | true => cases rows with
      | nil => exact isTrue trivial
      | cons a l => exact isFalse (fun h => h)

/-- An environment in which every artifact is missing. -/
def envAllMissing : String → ReadResult := fun _ => ReadResult.fileMissing

theorem sInsert_perm {α : Type} (le : α → α → Bool) (x : α) :
    ∀ l : List α, (sInsert le x l).Perm (x :: l)
  | [] => by simp [sInsert]
  | y :: ys => by
    by_cases h : le x y = true
    · simp [sInsert, h]
    · simp only [sInsert, h, if_false, Bool.false_eq_true, if_neg]
      exact ((sInsert_perm le x ys).cons y).trans (List.Perm.swap x y ys)

theorem sSort_perm {α : Type} (le : α → α → Bool) :
    ∀ l : List α, (sSort le l).Perm l
  | [] => List.Perm.refl []
  | x :: xs => (sInsert_perm le x (sSort le xs)).trans ((sSort_perm le xs).cons x)

theorem pairwise_sInsert {α : Type} (le : α → α → Bool)
    (htot : ∀ a b, le a b = true ∨ le b a = true)
    (htrans : ∀ a b c, le a b = true → le b c = true → le a c = true)
    (x : α) : ∀ l : List α, l.Pairwise (fun a b => le a b = true) →
      (sInsert le x l).Pairwise (fun a b => le a b = true)
  | [], _ => by simp [sInsert]
  | y :: ys, hl => by
    rcases List.pairwise_cons.mp hl with ⟨hy, hys⟩
    by_cases h : le x y = true
    · simp only [sInsert, h, if_pos]
      refine List.pairwise_cons.mpr ⟨?_, hl⟩
      intro z hz
      rcases List.mem_cons.mp hz with rfl | hz
      · exact h
      · exact htrans x y z h (hy z hz)
    · simp only [sInsert, h, if_neg, Bool.false_eq_true]
      refine List.pairwise_cons.mpr ⟨?_, pairwise_sInsert le htot htrans x ys hys⟩
      intro z hz
      rcases List.mem_cons.mp ((sInsert_perm le x ys).mem_iff.mp hz) with hzx | hz
      · rw [hzx]
        rcases htot x y with hxy | hyx
        · exact absurd hxy h
        · exact hyx
      · exact hy z hz

theorem pairwise_sSort {α : Type} (le : α → α → Bool)
    (htot : ∀ a b, le a b = true ∨ le b a = true)
    (htrans : ∀ a b c, le a b = true → le b c = true → le a c = true) :
    ∀ l : List α, (sSort le l).Pairwise (fun a b => le a b = true)
  | [] => by simp [sSort]
  | x :: xs => pairwise_sInsert le htot htrans x (sSort le xs)
      (pairwise_sSort le htot htrans xs)

theorem stab_sInsert {α : Type} (le : α → α → Bool) (f : α → Nat) (x : α) :
    ∀ l : List α,
      l.Pairwise (fun a b => le a b = true → le b a = true → f a < f b) →
      (∀ y ∈ l, f x < f y) →
      (sInsert le x l).Pairwise (fun a b => le a b = true → le b a = true → f a < f b)
  | [], _, _ => by simp [sInsert]
  | y :: ys, hl, hx => by
    rcases List.pairwise_cons.mp hl with ⟨hy, hys⟩
    by_cases h : le x y = true
    · simp only [sInsert, h, if_pos]
      refine List.pairwise_cons.mpr ⟨?_, hl⟩
      intro z hz _ _
      exact hx z hz
    · simp only [sInsert, h, if_neg, Bool.false_eq_true]
      refine List.pairwise_cons.mpr
        ⟨?_, stab_sInsert le f x ys hys (fun z hz => hx z (List.mem_cons_of_mem y hz))⟩
      intro z hz
      rcases List.mem_cons.mp ((sInsert_perm le x ys).mem_iff.mp hz) with rfl | hz
      · exact fun _ hxy => absurd hxy h
      · exact hy z hz

theorem stab_sSort {α : Type} (le : α → α → Bool) (f : α → Nat) :
    ∀ l : List α, l.Pairwise (fun a b => f a < f b) →
      (sSort le l).Pairwise (fun a b => le a b = true → le b a = true → f a < f b)
  | [], _ => by simp [sSort]
  | x :: xs, hl => by
    rcases List.pairwise_cons.mp hl with ⟨hx, hxs⟩
    exact stab_sInsert le f x (sSort le xs) (stab_sSort le f xs hxs)
      (fun y hy => hx y ((sSort_perm le xs).mem_iff.mp hy))

theorem mem_enumFromN {α : Type} :
    ∀ (n : Nat) (l : List α) (p : Nat × α), p ∈ enumFromN n l → n ≤ p.1
  | n, [], p, h => by simp [enumFromN] at h
  | n, x :: xs, p, h => by
    rcases List.mem_cons.mp h with rfl | h
    · exact Nat.le_refl n
    · exact Nat.le_of_succ_le (mem_enumFromN (n + 1) xs p h)

theorem pairwise_enumFromN {α : Type} :
    ∀ (n : Nat) (l : List α), (enumFromN n l).Pairwise (fun a b => a.1 < b.1)
  | n, [] => by simp [enumFromN]
  | n, x :: xs => by
    refine List.pairwise_cons.mpr ⟨?_, pairwise_enumFromN (n + 1) xs⟩
    intro p hp
    exact Nat.lt_of_succ_le (mem_enumFromN (n + 1) xs p hp)

theorem keyLe_total (p q : Nat × Nat) : keyLe p q = true ∨ keyLe q p = true := by
  simp only [keyLe, Bool.or_eq_true, Bool.and_eq_true, decide_eq_true_eq]
  omega

theorem keyLe_trans (p q r : Nat × Nat) (h1 : keyLe p q = true) (h2 : keyLe q r = true) :
    keyLe p r = true := by
  simp only [keyLe, Bool.or_eq_true, Bool.and_eq_true, decide_eq_true_eq] at h1 h2 ⊢
  omega

theorem keyLe_refl (p : Nat × Nat) : keyLe p p = true := by
  simp [keyLe]

theorem txLe_total (a b : Nat × Tx) : txLe a b = true ∨ txLe b a = true :=
  keyLe_total (txKey a.2) (txKey b.2)

theorem txLe_trans (a b c : Nat × Tx) (h1 : txLe a b = true) (h2 : txLe b c = true) :
    txLe a c = true :=
  keyLe_trans (txKey a.2) (txKey b.2) (txKey c.2) h1 h2

theorem txLe_not_buy_before_sell (a b : Nat × Tx) (h : txLe a b = true)
    (hd : a.2.date = b.2.date) (ha : a.2.transaction = "buy")
    (hb : b.2.transaction = "sell") : False := by
  have h1 : typeRank "buy" = 1 := by decide
  have h0 : typeRank "sell" = 0 := by decide
  simp only [txLe, txKey, ha, hb, h1, h0, hd, keyLe, Bool.or_eq_true, Bool.and_eq_true,
    decide_eq_true_eq] at h
  omega

theorem sumAmounts_nil : sumAmounts [] = 0 := rfl

theorem sumAmounts_cons (p : String × Rat) (l : List (String × Rat)) :
    sumAmounts (p :: l) = p.2 + sumAmounts l := by
  simp [sumAmounts]

theorem sumAmounts_append (l₁ l₂ : List (String × Rat)) :
    sumAmounts (l₁ ++ l₂) = sumAmounts l₁ + sumAmounts l₂ := by
  simp [sumAmounts]

theorem allocGo_sum (pool : List FundSource) : ∀ r : Rat,
    sumAmounts (allocGo r pool).1 + (allocGo r pool).2.1 = r := by
  induction pool with
  | nil => intro r; simp [allocGo, sumAmounts]
  | cons f rest ih =>
    intro r
    by_cases h0 : r ≤ 0
    · simp [allocGo, h0, sumAmounts]
    · by_cases h1 : f.amount_usd ≤ r
      · simp only [allocGo, h0, if_neg, h1, if_pos, not_false_iff]
        rw [sumAmounts_cons]
        have h := ih (r - f.amount_usd)
        linarith
      · simp only [allocGo, h0, h1, if_neg, not_false_iff, if_false]
        simp [sumAmounts]

theorem allocGo_nonneg : ∀ (pool : List FundSource) (r : Rat),
    0 ≤ r → 0 ≤ (allocGo r pool).2.1
  | [], r, hr => hr
  | f :: rest, r, hr => by
    by_cases h0 : r ≤ 0
    · simpa [allocGo, h0] using hr
    · by_cases h1 : f.amount_usd ≤ r
      · simp only [allocGo, h0, if_neg, h1, if_pos, not_false_iff]
        exact allocGo_nonneg rest (r - f.amount_usd) (by linarith)
      · simp only [allocGo, h0, if_neg, not_false_iff]
        rw [if_neg h1]

theorem allocGo_nonpos (pool : List FundSource) (r : Rat) (hr : r ≤ 0) :
    allocGo r pool = ([], r, pool) := by
  cases pool with
  | nil => simp [allocGo]
  | cons f rest => simp [allocGo, hr]

/-- C1: for every required USD value V that is nonnegative, the amounts in
the allocation list returned by `allocate_funds`, including any trailing
"Initial Cash" fallback entry, sum to exactly V, whatever the pool holds. -/
theorem c1_buy_allocation_conserves_value (V : Rat) (pool : List FundSource)
    (hV : 0 ≤ V) : sumAmounts (allocate_funds V pool).1 = V := by
  have hsum := allocGo_sum (sSort fundLe pool) V
  by_cases h : 0 < (allocGo V (sSort fundLe pool)).2.1
  · simp only [allocate_funds, h, if_pos]
    rw [sumAmounts_append, sumAmounts_cons, sumAmounts_nil]
    linarith
  · simp only [allocate_funds, h, if_neg, not_false_iff]
    have hz : (allocGo V (sSort fundLe pool)).2.1 = 0 :=
      le_antisymm (not_lt.mp h) (allocGo_nonneg (sSort fundLe pool) V hV)
    linarith

theorem c1_buy_allocation_conserves_value_witness :
    (0 : Rat) ≤ 120 ∧
    sumAmounts (allocate_funds 120
      [⟨"sell", "A", 100, 5, 0⟩, ⟨"sell", "B", 50, 5, 1⟩]).1 = 120 :=
  ⟨by norm_num,
   c1_buy_allocation_conserves_value 120
     [⟨"sell", "A", 100, 5, 0⟩, ⟨"sell", "B", 50, 5, 1⟩] (by norm_num)⟩

/-- C2: with fund sources of sequence ids 0, 1, 2 and amounts 100, 50, 200,
allocating 120 consumes source 0 fully (100) and then 20 from source 1;
source 0 is removed, source 1 stays with 30, and source 2 is untouched. -/
theorem c2_fifo_allocation_example :
    allocate_funds 120
      [⟨"sell", "A", 100, 5, 0⟩, ⟨"sell", "B", 50, 5, 1⟩, ⟨"sell", "C", 200, 5, 2⟩]
    = ([("A", 100), ("B", 20)],
       [⟨"sell", "B", 30, 5, 1⟩, ⟨"sell", "C", 200, 5, 2⟩]) := by
  norm_num [allocate_funds, allocGo, sSort, sInsert, fundLe, sourceNodeOf]

/-- C6 counterexample: a negative required amount is not rejected as a
contract violation; `allocate_funds` returns normally with an empty
allocation list and the pool intact. -/
theorem c6_negative_returns_normally :
    allocate_funds (-5) [⟨"sell", "A", 100, 5, 0⟩]
      = ([], [⟨"sell", "A", 100, 5, 0⟩]) := by
  norm_num [allocate_funds, allocGo, sSort, sInsert, fundLe, sourceNodeOf]

/-- C6 amended: a required amount of zero returns an empty allocation list
with the pool's fund entries unchanged up to reordering, and a negative
required amount likewise returns an empty list normally instead of being
rejected. -/
theorem c6_nonpositive_required_empty_allocation (r : Rat) (pool : List FundSource)
    (h : r ≤ 0) :
    (allocate_funds r pool).1 = [] ∧ (allocate_funds r pool).2.Perm pool := by
  have hz := allocGo_nonpos (sSort fundLe pool) r h
  constructor
  · simp [allocate_funds, hz, not_lt.mpr h]
  · simpa [allocate_funds, hz, not_lt.mpr h] using sSort_perm fundLe pool

theorem assocLookup_append_same {β : Type} (cache : List (String × β)) (sym : String)
    (v : β) (h : assocLookup cache sym = none) :
    assocLookup (cache ++ [(sym, v)]) sym = some v := by
  induction cache with
  | nil => simp [assocLookup]
  | cons kv rest ih =>
    cases kv with
    | mk k w =>
      by_cases hk : k = sym
      · simp [assocLookup, hk] at h
      · simp only [assocLookup, hk, if_neg, not_false_iff, List.cons_append] at h ⊢
        exact ih h

theorem get_stock_currency_caches (env : String → ReadResult)
    (cache : List (String × String)) (sym : String) :
    assocLookup (get_stock_currency env cache sym).cache sym
      = some (get_stock_currency env cache sym).currency := by
  unfold get_stock_currency
  cases hc : assocLookup cache sym with
  | some c => simp [hc]
  | none =>
    cases he : env sym with
    | fileMissing => simpa using assocLookup_append_same cache sym "USD" hc
    | readError => simpa using assocLookup_append_same cache sym "USD" hc
    | frame hcol rows =>
      cases hcol with
      | false => simpa using assocLookup_append_same cache sym "USD" hc
      | true =>
        cases rows with
        | nil => simpa using assocLookup_append_same cache sym "USD" hc
        | cons c cs => simpa using assocLookup_append_same cache sym c hc

/-- C9: the per-symbol currency lookup never fails the caller: with no
cached entry, a missing artifact, a read failure, a missing currency
column or an empty frame all yield "USD"; and any second call for the
same symbol returns the memoized result with an unchanged cache and no
artifact access, whatever environment the second call would see. -/
theorem c9_currency_lookup_total_and_memoized :
    (∀ (env : String → ReadResult) (cache : List (String × String)) (sym : String),
       assocLookup cache sym = none → readFails (env sym) →
       (get_stock_currency env cache sym).currency = "USD") ∧
    (∀ (env env₂ : String → ReadResult) (cache : List (String × String)) (sym : String),
       get_stock_currency env₂ (get_stock_currency env cache sym).cache sym
         = ⟨(get_stock_currency env cache sym).currency,
            (get_stock_currency env cache sym).cache, false⟩) := by
  constructor
  · intro env cache sym hc hf
    unfold get_stock_currency
    rw [hc]
    cases he : env sym with
    | fileMissing => simp
    | readError => simp
    | frame hcol rows =>
      cases hcol with
      | false => simp
      | true =>
        cases rows with
        | nil => simp
        | cons c cs => rw [he] at hf; exact absurd hf (by simp [readFails])
  · intro env env₂ cache sym
    have h := get_stock_currency_caches env cache sym
    set r := get_stock_currency env cache sym with hr
    unfold get_stock_currency
    rw [h]

theorem c9_currency_lookup_total_and_memoized_witness :
    (assocLookup ([] : List (String × String)) "MSFT" = none ∧
      readFails (envAllMissing "MSFT") ∧
      (get_stock_currency envAllMissing [] "MSFT").currency = "USD") ∧
    get_stock_currency envAllMissing (get_stock_currency envAllMissing [] "MSFT").cache "MSFT"
      = ⟨(get_stock_currency envAllMissing [] "MSFT").currency,
         (get_stock_currency envAllMissing [] "MSFT").cache, false⟩ :=
  ⟨⟨rfl, trivial,
    c9_currency_lookup_total_and_memoized.1 envAllMissing [] "MSFT" rfl trivial⟩,
   c9_currency_lookup_total_and_memoized.2 envAllMissing envAllMissing [] "MSFT"⟩

/-- C10: a sell of a symbol with no open position still appends a `sell`
fund source for the full converted proceeds, with id equal to the pool
length, and leaves the positions mapping unchanged. -/
theorem c10_sell_without_position (env : String → ReadResult) (rates : List (Nat × Rat))
    (st : TrackerState) (tx : Tx)
    (h : assocLookup st.positions tx.symbol = none) :
    (process_sell_transaction env rates st tx).2.positions = st.positions ∧
    (process_sell_transaction env rates st tx).2.available_funds
      = st.available_funds ++
        [⟨"sell", tx.symbol,
          to_usd rates (tx.quantity * tx.price)
            (get_stock_currency env st.currency_cache tx.symbol).currency tx.date,
          tx.date, st.available_funds.length⟩] := by
  constructor <;> simp [process_sell_transaction, h]

theorem c10_sell_without_position_witness :
    assocLookup initState.positions "AAPL" = none ∧
    (process_sell_transaction envAllMissing [] initState
        ⟨"sell", "AAPL", 1, 10, 100, "Funds"⟩).2.positions = initState.positions ∧
    (process_sell_transaction envAllMissing [] initState
        ⟨"sell", "AAPL", 1, 10, 100, "Funds"⟩).2.available_funds
      = initState.available_funds ++
        [⟨"sell", "AAPL",
          to_usd [] (10 * 100)
            (get_stock_currency envAllMissing initState.currency_cache "AAPL").currency 1,
          1, initState.available_funds.length⟩] :=
  ⟨rfl,
   (c10_sell_without_position envAllMissing [] initState
      ⟨"sell", "AAPL", 1, 10, 100, "Funds"⟩ rfl).1,
   (c10_sell_without_position envAllMissing [] initState
      ⟨"sell", "AAPL", 1, 10, 100, "Funds"⟩ rfl).2⟩

theorem dividends_received_spec (rates : List (Nat × Rat)) (currency symbol : String)
    (txs : List Tx) : ∀ (events : List (Nat × Rat)) (pool : List FundSource),
    dividends_received rates currency symbol txs events pool
      = (sumFundAmounts (creditedDividendFunds rates currency symbol txs pool.length events),
         pool ++ creditedDividendFunds rates currency symbol txs pool.length events)
  | [], pool => by simp [dividends_received, creditedDividendFunds, sumFundAmounts]
  | (d, dps) :: es, pool => by
    by_cases h : 0 < holdings_at txs d
    · simp only [dividends_received, creditedDividendFunds, h, if_pos]
      rw [dividends_received_spec rates currency symbol txs es]
      simp [sumFundAmounts, List.length_append, List.append_assoc]
    · simp only [dividends_received, creditedDividendFunds, h, if_neg, not_false_iff]
      exact dividends_received_spec rates currency symbol txs es pool

/-- C7: `dividends_received` credits, for each dividend event date with
positive replayed holdings, exactly one new `dividend` fund source of
shares times dividend per share (USD-converted) appended to the pool, and
returns the accumulated total of those credits; on the concrete
sold-before-ex-date history (buy 50 on day 20, sell 50 on day 60,
dividend 1/2 on day 75) it credits zero and injects nothing, while
`dividends_if_held` credits the positive amount 25. -/
theorem c7_dividend_attribution :
    (∀ (rates : List (Nat × Rat)) (currency symbol : String) (txs : List Tx)
       (events : List (Nat × Rat)) (pool : List FundSource),
       dividends_received rates currency symbol txs events pool
         = (sumFundAmounts (creditedDividendFunds rates currency symbol txs pool.length events),
            pool ++ creditedDividendFunds rates currency symbol txs pool.length events)) ∧
    dividends_received [] "USD" "GOOG"
      [⟨"buy", "GOOG", 20, 50, 90, "Funds"⟩, ⟨"sell", "GOOG", 60, 50, 95, "Funds"⟩]
      [(75, 1/2)] [] = (0, []) ∧
    dividends_if_held [] "USD"
      [⟨"buy", "GOOG", 20, 50, 90, "Funds"⟩, ⟨"sell", "GOOG", 60, 50, 95, "Funds"⟩]
      [(75, 1/2)] = 25 ∧ (0 : Rat) < 25 ∧
    dividends_received [] "USD" "MSFT" [⟨"buy", "MSFT", 10, 100, 220, "Funds"⟩]
      [(50, 17/25)] [] = (68, [⟨"dividend", "MSFT", 68, 50, 0⟩]) :=
  ⟨fun rates currency symbol txs => dividends_received_spec rates currency symbol txs,
   by simp [dividends_received, holdings_at, to_usd] <;> norm_num,
   by simp [dividends_if_held, holdings_at, bought_before, sold_before, to_usd] <;> norm_num,
   by norm_num,
   by simp [dividends_received, holdings_at, to_usd] <;> norm_num⟩

/-- C8: the replay order is the stable sort of the input by (date,
sells-before-buys): it is a permutation of the index-tagged input, on it
no same-date buy ever precedes a same-date sell, and entries with equal
sort keys keep their input order. -/
theorem c8_sort_sells_before_buys_stable (txs : List Tx) :
    (sortTransactions txs).Perm (enumFromN 0 txs) ∧
    (sortTransactions txs).Pairwise (fun a b => txLe a b = true) ∧
    (sortTransactions txs).Pairwise (fun a b =>
      ¬(a.2.date = b.2.date ∧ a.2.transaction = "buy" ∧ b.2.transaction = "sell")) ∧
    (sortTransactions txs).Pairwise (fun a b => txKey a.2 = txKey b.2 → a.1 < b.1) := by
  refine ⟨sSort_perm txLe (enumFromN 0 txs),
    pairwise_sSort txLe txLe_total txLe_trans (enumFromN 0 txs), ?_, ?_⟩
  · have hs := pairwise_sSort txLe txLe_total txLe_trans (enumFromN 0 txs)
    refine hs.imp ?_
    intro a b hab hcon
    exact txLe_not_buy_before_sell a b hab hcon.1 hcon.2.1 hcon.2.2
  · have hs := stab_sSort txLe Prod.fst (enumFromN 0 txs) (pairwise_enumFromN 0 txs)
    refine hs.imp (fun hab hk => hab ?_ ?_)
    · simp only [txLe, hk]
      exact keyLe_refl _
    · simp only [txLe, hk]
      exact keyLe_refl _

/-- C3 (code behavior at the failing input): a sell of AAPL for 1000 puts
a fund source in the pool; the following RSU-sourced buy of WDAY for 9000
emits exactly one edge from "RSU Compensation" for the full value, but
the pool IS drawn down by allocation (it ends empty) and NO compensation
fund source is added, contradicting the claimed pool behavior. -/
theorem c3_employment_buy_drains_pool_and_adds_no_fund :
    (process_transactions envAllMissing []
        [⟨"sell", "AAPL", 1, 10, 100, "Funds"⟩]).available_funds
      = [⟨"sell", "AAPL", 1000, 1, 0⟩] ∧
    (process_transactions envAllMissing []
        [⟨"sell", "AAPL", 1, 10, 100, "Funds"⟩,
         ⟨"buy", "WDAY", 2, 50, 180, "RSU"⟩]).available_funds = [] ∧
    (process_transactions envAllMissing []
        [⟨"sell", "AAPL", 1, 10, 100, "Funds"⟩,
         ⟨"buy", "WDAY", 2, 50, 180, "RSU"⟩]).flow_data.map
      (fun e => (e.from_symbol, e.value, e.type))
      = [("RSU Compensation", 9000, "RSU")] := by
  refine ⟨?_, ?_, ?_⟩ <;>
    (simp [process_transactions, sortTransactions, sSort, sInsert, enumFromN, processOne,
      process_sell_transaction, process_buy_transaction, get_stock_currency, assocLookup,
      assocUpdate, assocErase, to_usd, eur_to_usd, initState, addNode, indexOfStr,
      envAllMissing, txLe, txKey, keyLe, typeRank, allocate_funds, allocGo, fundLe,
      sourceNodeOf, show upperTag "RSU" = "RSU" from rfl,
      show upperTag "Funds" = "FUNDS" from rfl] <;> norm_num)

/-- C4 (code behavior at the failing input): with a rate table holding
only day 10 at 3/2, converting 100 EUR on day 17 multiplies by the fixed
fallback constant 11/10, giving 110 — not the nearest available rate,
which would give 150; an exact-match date does return the stored rate. -/
theorem c4_missing_date_uses_fixed_constant :
    eur_to_usd [(10, 3/2)] 100 17 = 110 ∧
    eur_to_usd [(10, 3/2)] 100 10 = 150 := by
  constructor <;> norm_num [eur_to_usd, assocLookup]

/-- C5 (code behavior at the failing input): after a sell creates a fund
source with sequence id 0 and a buy fully consumes it, the next sell's
fund source again receives sequence id 0 — the pool length — which is not
strictly greater than the id of the earlier fund source. -/
theorem c5_sequence_id_reused_after_consumption :
    (process_transactions envAllMissing []
        [⟨"sell", "A", 1, 1, 100, "Funds"⟩]).available_funds
      = [⟨"sell", "A", 100, 1, 0⟩] ∧
    (process_transactions envAllMissing []
        [⟨"sell", "A", 1, 1, 100, "Funds"⟩, ⟨"buy", "B", 2, 1, 100, "Funds"⟩,
         ⟨"sell", "C", 3, 1, 50, "Funds"⟩]).available_funds
      = [⟨"sell", "C", 50, 3, 0⟩] := by
  constructor <;>
    (simp [process_transactions, sortTransactions, sSort, sInsert, enumFromN, processOne,
      process_sell_transaction, process_buy_transaction, get_stock_currency, assocLookup,
      assocUpdate, assocErase, to_usd, eur_to_usd, initState, addNode, indexOfStr,
      envAllMissing, txLe, txKey, keyLe, typeRank, allocate_funds, allocGo, fundLe,
      sourceNodeOf, show upperTag "RSU" = "RSU" from rfl,
      show upperTag "Funds" = "FUNDS" from rfl] <;> norm_num)

theorem c6_nonpositive_required_empty_allocation_witness :
    ((0 : Rat) ≤ 0 ∧
      (allocate_funds 0 [⟨"sell", "A", 100, 5, 0⟩]).1 = [] ∧
      (allocate_funds 0 [⟨"sell", "A", 100, 5, 0⟩]).2.Perm [⟨"sell", "A", 100, 5, 0⟩]) :=
  ⟨by norm_num,
   (c6_nonpositive_required_empty_allocation 0 [⟨"sell", "A", 100, 5, 0⟩] (by norm_num)).1,
   (c6_nonpositive_required_empty_allocation 0 [⟨"sell", "A", 100, 5, 0⟩] (by norm_num)).2⟩

end YV
